import Mathlib

/-!
Shallow embedding of the crawl engine in `scraper_engine.py` (class
`ScraperEngine`), together with proofs of the specification's testable
properties.

Modelling conventions:
* Python strings are Lean `String`s; where character-level reasoning is
  needed (the slugifier) we work on `List Char` (`String.data`).
* Python's regex class `\w` is modelled for ASCII input as
  "alphanumeric or underscore", and `\s` as the ASCII whitespace
  characters recognised by Python's `re` module.
* Python `set`s are modelled as duplicate-free `List`s in insertion
  order (`addSet` below); the engine's properties proved here are
  insensitive to set iteration order.
* The network is a `World` value: a sitemap answer plus a map from URL
  to fetched page or fetch/transform error.  The worker-pool's
  nondeterministic completion order is a `List Nat` schedule; each
  schedule entry selects which in-flight URL completes next.
-/

namespace SkillGen

/-! ## Character classes (Python `re` module, ASCII range) -/

/-- ASCII model of Python regex `\w`: `[A-Za-z0-9_]`. -/
def isWordCharA (c : Char) : Bool :=
  c.isAlphanum || c = '_'

/-- ASCII model of Python regex `\s`: space, tab, newline, carriage
return, vertical tab, form feed. -/
def isSpaceA (c : Char) : Bool :=
  c = ' ' || c = '\t' || c = '\n' || c = '\r' || c = '\x0b' || c = '\x0c'

/-- A character replaced by the regex `[-\s]+` in `_slugify`. -/
def isDashSpace (c : Char) : Bool :=
  c = '-' || isSpaceA c

/-! ## `ScraperEngine._slugify` (lines 98-105) -/

/-- Model of `re.sub(r'[-\s]+', '-', text)`: every maximal run of
hyphen/whitespace characters becomes a single hyphen. -/
def collapseDash : List Char → List Char
  | [] => []
  | c :: cs =>
    let rest := collapseDash cs
    if isDashSpace c then
      match rest with
      | '-' :: _ => rest
      | _ => '-' :: rest
    else c :: rest

/-- Model of Python `str.strip('-')`: drop leading and trailing hyphens. -/
def stripDash (l : List Char) : List Char :=
  ((l.dropWhile (fun c => c = '-')).reverse.dropWhile (fun c => c = '-')).reverse

/-- `ScraperEngine._slugify` on `List Char`:
lower-case, drop everything but `[\w\s-]`, collapse `[-\s]+` runs to a
single `-`, strip border hyphens, with `"untitled"` as the fallback for
an empty input or an empty final result. -/
def slugifyL (t : List Char) : List Char :=
  if t = [] then "untitled".data
  else
    let t1 := t.map Char.toLower
    let t2 := t1.filter (fun c => isWordCharA c || isSpaceA c || c = '-')
    let t3 := stripDash (collapseDash t2)
    if t3 = [] then "untitled".data else t3

/-- `ScraperEngine._slugify` on `String`. -/
def slugify (s : String) : String :=
  String.mk (slugifyL s.data)

/-! ## Filename generation (`process_url`, lines 184-187) -/

/-- Filename generation on `List Char`: `filename = _slugify(title) + ".md"`,
then `filename = filename[:100] + ".md"` when longer than 100 characters. -/
def mkFilenameL (t : List Char) : List Char :=
  let f := slugifyL t ++ ".md".data
  if f.length > 100 then f.take 100 ++ ".md".data else f

/-- Filename generation on `String`. -/
def mkFilename (s : String) : String :=
  String.mk (mkFilenameL s.data)

/-! ## Title resolution (`process_url`, lines 175-176)

`soup.title` may be absent (outer `none`) and, when present, its
`.string` may be `None` (inner `none`).  The code is
`title = soup.title.string if soup.title else "No Title"` followed by
`title = title.strip() if title else "Untitled"`. -/

/-- Model of Python `str.strip()` (whitespace at both ends). -/
def pyStrip (s : String) : String :=
  String.mk (((s.data.dropWhile isSpaceA).reverse.dropWhile isSpaceA).reverse)

/-- Model of Python `str.lower()` (ASCII range). -/
def pyLower (s : String) : String :=
  String.mk (s.data.map Char.toLower)

/-- Model of Python `str.startswith(pre)`. -/
def pyStartsWith (s pre : String) : Bool :=
  pre.data.isPrefixOf s.data

/-- Model of Python `str.endswith(suf)`. -/
def pyEndsWith (s suf : String) : Bool :=
  suf.data.isSuffixOf s.data

/-- Model of Python `s.split('#')[0]`: everything before the first `#`. -/
def pySplitHashHead (s : String) : String :=
  String.mk (s.data.takeWhile (fun c => c ≠ '#'))

/-- Title resolution exactly as the two assignments in `process_url`. -/
def resolveTitle (titleTag : Option (Option String)) : String :=
  let step1 : Option String :=
    match titleTag with
    | none => some "No Title"
    | some ts => ts
  match step1 with
  | none => "Untitled"
  | some s => if s = "" then "Untitled" else pyStrip s


/-! ## URLs: the parts of `urllib.parse` the engine calls

`urlparse`/`urljoin`/`urlsplit` from CPython's `urllib/parse.py`,
modelled for URLs that carry no `;`-path-parameters (the engine never
produces any), with `allow_fragments` left at its default. -/

/-- Characters allowed in a URL scheme after the first (`scheme_chars`). -/
def isSchemeChar (c : Char) : Bool :=
  c.isAlphanum || c = '+' || c = '-' || c = '.'

/-- Result of `urlsplit`: scheme, netloc, path, query, fragment. -/
structure PUrl where
  scheme : String
  netloc : String
  path : String
  query : String
  fragment : String
deriving DecidableEq, Repr

/-- Python `str.split(sep)` for a single-character separator (never
returns an empty list; splitting the empty string yields one empty
piece). -/
def splitChar (sep : Char) : List Char → List (List Char)
  | [] => [[]]
  | c :: cs =>
    let r := splitChar sep cs
    if c = sep then [] :: r
    else
      match r with
      | h :: t => (c :: h) :: t
      | [] => [[c]]

/-- Model of `urllib.parse.urlsplit(url, scheme=defaultScheme)` on
`List Char`.  Steps, as in CPython: detect an explicit scheme (a `:`
preceded by a letter-led run of scheme characters), then a
`//`-delimited netloc, then split off fragment and query. -/
def pyUrlsplitL (u : List Char) (defaultScheme : String) : PUrl :=
  -- scheme detection
  let pre := u.takeWhile (fun c => c ≠ ':')
  let hasScheme : Bool :=
    decide (pre.length < u.length) &&
      (match pre with
       | c :: cs => (c.isUpper || c.isLower) && cs.all isSchemeChar
       | [] => false)
  let (scheme, rest) :=
    if hasScheme then
      (String.mk (pre.map Char.toLower), u.drop (pre.length + 1))
    else (defaultScheme, u)
  -- netloc detection
  let (netloc, rest) :=
    match rest with
    | '/' :: '/' :: r =>
      let n := r.takeWhile (fun c => c ≠ '/' ∧ c ≠ '?' ∧ c ≠ '#')
      (String.mk n, r.drop n.length)
    | r => ("", r)
  -- fragment
  let (rest, fragment) :=
    let b := rest.takeWhile (fun c => c ≠ '#')
    if b.length < rest.length then (b, rest.drop (b.length + 1)) else (rest, [])
  -- query
  let (path, query) :=
    let b := rest.takeWhile (fun c => c ≠ '?')
    if b.length < rest.length then (b, rest.drop (b.length + 1)) else (rest, [])
  ⟨scheme, netloc, String.mk path, String.mk query, String.mk fragment⟩

/-- Model of `urllib.parse.urlsplit` on `String`. -/
def pyUrlsplit (u : String) (defaultScheme : String) : PUrl :=
  pyUrlsplitL u.data defaultScheme

/-- Model of `urllib.parse.urlunsplit`. -/
def pyUrlunsplit (p : PUrl) : String :=
  let url := p.path
  let url :=
    if p.netloc ≠ "" ∨ pyStartsWith url "//" then
      "//" ++ p.netloc ++ (if url ≠ "" ∧ ¬ pyStartsWith url "/" then "/" ++ url else url)
    else url
  let url := if p.scheme ≠ "" then p.scheme ++ ":" ++ url else url
  let url := if p.query ≠ "" then url ++ "?" ++ p.query else url
  if p.fragment ≠ "" then url ++ "#" ++ p.fragment else url

/-- CPython's `uses_relative` scheme list. -/
def usesRelative : List String :=
  ["", "ftp", "http", "gopher", "nntp", "imap", "wais", "file", "https",
   "shttp", "mms", "prospero", "rtsp", "rtspu", "sftp", "svn", "svn+ssh",
   "ws", "wss"]

/-- CPython's `uses_netloc` scheme list. -/
def usesNetloc : List String :=
  ["", "ftp", "http", "gopher", "nntp", "telnet", "imap", "wais", "file",
   "mms", "https", "shttp", "snews", "prospero", "rtsp", "rtspu", "rsync",
   "svn", "svn+ssh", "sftp", "nfs", "git", "git+ssh", "ws", "wss",
   "itms-services"]

/-- The `'..'`/`'.'` resolution loop of `urljoin`. -/
def resolveSegs (segs : List (List Char)) : List (List Char) :=
  segs.foldl
    (fun acc seg =>
      if seg = "..".data then acc.dropLast
      else if seg = ".".data then acc
      else acc ++ [seg])
    []

/-- Keep the first and last element, drop empty strings in between
(`segments[1:-1] = filter(None, segments[1:-1])`). -/
def filterMiddle (segs : List (List Char)) : List (List Char) :=
  match segs with
  | [] => []
  | [x] => [x]
  | x :: rest =>
    x :: (rest.dropLast.filter (fun s => s ≠ []) ++ [rest.getLastD []])

/-- Model of `urllib.parse.urljoin(base, url)`. -/
def pyUrljoin (base url : String) : String :=
  if base = "" then url
  else if url = "" then base
  else
    let b := pyUrlsplit base ""
    let t := pyUrlsplit url b.scheme
    if t.scheme ≠ b.scheme ∨ t.scheme ∉ usesRelative then url
    else if t.scheme ∈ usesNetloc ∧ t.netloc ≠ "" then pyUrlunsplit t
    else
      let netloc := if t.scheme ∈ usesNetloc then b.netloc else t.netloc
      if t.path = "" then
        let query := if t.query = "" then b.query else t.query
        pyUrlunsplit ⟨t.scheme, netloc, b.path, query, t.fragment⟩
      else
        let baseParts :=
          let bp := splitChar '/' b.path.data
          if bp.getLast? ≠ some [] then bp.dropLast else bp
        let segments :=
          if pyStartsWith t.path "/" then splitChar '/' t.path.data
          else filterMiddle (baseParts ++ splitChar '/' t.path.data)
        let resolved :=
          let r := resolveSegs segments
          if segments.getLast? = some ".".data ∨ segments.getLast? = some "..".data
          then r ++ [[]] else r
        let joined := String.mk (List.intercalate "/".data resolved)
        let path := if joined = "" then "/" else joined
        pyUrlunsplit ⟨t.scheme, netloc, path, t.query, t.fragment⟩

/-! ## Configuration (`ScraperConfig`, lines 23-35) -/

/-- `ScraperConfig`.  `crawl_rate` (a sleep), `user_agent` and
`max_retries` (handled inside the HTTP session) do not influence the
control flow modelled here and are carried for completeness. -/
structure ScraperConfig where
  mode : String := "sitemap"
  sitemap_url : Option String := none
  base_url : Option String := none
  max_threads : Nat := 5
  max_pages : Nat := 100
  skill_name : String := "generated-skill"
  skill_description : String := "AI Skill generated from website documentation."
  skill_overview : String := "This skill contains documentation scraped from the provided website."
deriving DecidableEq, Repr

/-! ## The network as data -/

/-- One fetched page, as far as the engine inspects it: the document's
title tag (`soup.title`, absent or with a possibly-`None` `.string`)
and the `href` of every `<a href=...>` tag in document order. -/
structure Page where
  titleTag : Option (Option String) := none
  hrefs : List String := []
deriving DecidableEq, Repr

/-- The outside world: the outcome of `fetch_sitemap_urls` (either the
URL list it returns or the message of the exception it re-raises —
computed from the HTTP-level response by `fetchSitemapUrls` below) and,
per URL, either a fetched page or the message of the exception raised
during that URL's fetch/transform. -/
structure World where
  sitemap : Except String (List String) := .ok []
  page : String → Except String Page

/-- One fetched sitemap response, as far as `fetch_sitemap_urls`
inspects it: the text of every `<loc>` element BeautifulSoup finds
(the `xml` parser with an `html.parser` fallback — neither raises on
malformed input, they just find no `<loc>` tags), and the response
text split on newlines for the plain-text fallback. -/
structure SitemapResponse where
  locTexts : List String := []
  textLines : List String := []
deriving DecidableEq, Repr

/-- `ScraperEngine.fetch_sitemap_urls` (lines 115-141): a raising
fetch (`session.get` / `raise_for_status`) is logged and re-raised;
otherwise the `<loc>` texts are collected and stripped, and when none
are found the response text is scanned for lines that, stripped,
start with `http`.  An unparsable document therefore yields `[]`
rather than an exception. -/
def fetchSitemapUrls (resp : Except String SitemapResponse) :
    Except String (List String) :=
  match resp with
  | .error e => .error e
  | .ok r =>
    let urls := r.locTexts.map pyStrip
    let urls :=
      if urls = [] then
        (r.textLines.map pyStrip).filter (fun l => pyStartsWith l "http")
      else urls
    .ok urls

/-! ## Link extraction (`process_url`, lines 156-169) -/

/-- Asset extensions excluded from discovery. -/
def assetExts : List String :=
  [".png", ".jpg", ".jpeg", ".gif", ".pdf", ".zip", ".css", ".js"]

/-- `ScraperEngine._is_internal_url` (lines 107-113): the parsed
netloc equals the base domain or is empty. -/
def isInternalUrl (url : String) (baseDomain : String) : Bool :=
  (pyUrlsplit url "").netloc = baseDomain || (pyUrlsplit url "").netloc = ""

/-- `full_url = urljoin(url, href)` followed by
`full_url = full_url.split('#')[0]`. -/
def resolveHref (pageUrl href : String) : String :=
  pySplitHashHead (pyUrljoin pageUrl href)

/-- The three nested guards of the extraction loop: internal domain,
no asset extension at the end of the lower-cased URL, `http` at the
front. -/
def linkOk (baseDomain full : String) : Bool :=
  isInternalUrl full baseDomain &&
    !(assetExts.any (fun ext => pyEndsWith (pyLower full) ext)) &&
    pyStartsWith full "http"

/-- The `for a_tag in soup.find_all('a', href=True)` loop, appending
each admitted resolved link to `extracted_links`. -/
def extractLoop (baseDomain pageUrl : String) (acc : List String) :
    List String → List String
  | [] => acc
  | href :: rest =>
    let full := resolveHref pageUrl href
    extractLoop baseDomain pageUrl
      (if linkOk baseDomain full then acc ++ [full] else acc) rest

/-- Link extraction for one page: runs only in recursive mode, against
the base domain `urlparse(self.config.base_url).netloc`. -/
def extractLinks (cfg : ScraperConfig) (pageUrl : String)
    (hrefs : List String) : List String :=
  if cfg.mode = "recursive" then
    extractLoop (pyUrlsplit (cfg.base_url.getD "") "").netloc pageUrl [] hrefs
  else []

/-! ## Per-URL processing (`process_url`, lines 143-214) -/

/-- The per-URL outcome record returned by `process_url`.  `error` is
`some msg` exactly in the failure dictionary (lines 207-214). -/
structure PageResult where
  url : String
  title : String
  filename : String
  status : String
  error : Option String := none
  extracted_links : List String := []
deriving DecidableEq, Repr

/-- `ScraperEngine.process_url`: any exception while fetching or
transforming the page is caught and turned into a `failed` record; a
fetched page yields a `success` record with extracted links, resolved
title and generated filename. -/
def processUrl (world : World) (cfg : ScraperConfig) (url : String) :
    PageResult :=
  match world.page url with
  | .error e =>
    { url := url, title := "Error", filename := "", status := "failed",
      error := some e, extracted_links := [] }
  | .ok pg =>
    let links := extractLinks cfg url pg.hrefs
    let title := resolveTitle pg.titleTag
    let filename := mkFilename title
    { url := url, title := title, filename := filename,
      status := "success", error := none, extracted_links := links }

/-! ## SKILL.md generation (`generate_skill_md`, lines 216-241) -/

/-- One table line: the f-string on line 237. -/
def renderRow (r : PageResult) : String :=
  "| `" ++ r.filename ++ "` | " ++ r.title ++ " |\n"

/-- Python `set.add` on an insertion-ordered duplicate-free list. -/
def addSet (l : List String) (u : String) : List String :=
  if u ∈ l then l else l ++ [u]

/-- The SKILL.md table loop with its `seen_filenames` set: one row per
successful result whose filename has not been seen before. -/
def skillRowsAux (seen : List String) : List PageResult → List String
  | [] => []
  | r :: rs =>
    if r.status = "success" ∧ r.filename ∉ seen then
      renderRow r :: skillRowsAux (addSet seen r.filename) rs
    else skillRowsAux seen rs

/-- The table rows of the generated SKILL.md, in emission order. -/
def skillRows (results : List PageResult) : List String :=
  skillRowsAux [] results

/-! ## Progress notification (`run`, lines 335-343)

The progress callback sits inside the completion loop behind a
throttle: it fires only when more than 0.1 s passed since the last
notification.  Completion wall-clock times (`time.time()` values) are
explicit inputs here; `last_update_time` starts at 0. -/

/-- The fraction passed to the callback: `min(1.0, completed/total)`
when the estimate is a positive integer, `0.5` otherwise. -/
def progressFraction (estimate : Option Nat) (completed : Nat) : ℚ :=
  match estimate with
  | some total =>
    if 0 < total then min 1 ((completed : ℚ) / (total : ℚ)) else (1 : ℚ) / 2
  | none => (1 : ℚ) / 2

/-- The fractions reported for a sequence of completion times:
`completed_count` is incremented per completion, and the callback runs
only when `current_time - last_update_time > 0.1`. -/
def progressCalls (estimate : Option Nat) :
    List ℚ → Nat → ℚ → List ℚ
  | [], _, _ => []
  | t :: ts, completed, lastUpdate =>
    let c := completed + 1
    if t - lastUpdate > 1 / 10 then
      progressFraction estimate c :: progressCalls estimate ts c t
    else
      progressCalls estimate ts c lastUpdate

/-! ## The scheduler (`run`, lines 277-389)

State of the driving loop: `visited`/`pending` are Python sets
(duplicate-free insertion-ordered lists here), `inflight` the URLs of
`future_to_url`, `results` the ordered result list. -/

structure RunState where
  visited : List String := []
  pending : List String := []
  inflight : List String := []
  results : List PageResult := []
deriving DecidableEq, Repr

/-- `for url in to_submit: if url not in visited_urls: visited_urls.add(url);
executor.submit(...)` — returns the updated `(visited, inflight)`. -/
def submitUrls (visited inflight : List String) :
    List String → List String × List String
  | [] => (visited, inflight)
  | u :: us =>
    if u ∈ visited then submitUrls visited inflight us
    else submitUrls (visited ++ [u]) (inflight ++ [u]) us

/-- Recursive discovery (lines 346-350): offer each extracted link not
yet visited to the pending set. -/
def offerLinks (visited : List String) (pending : List String)
    (links : List String) : List String :=
  links.foldl (fun p link => if link ∈ visited then p else addSet p link) pending

/-- One pass of the refill loop body (lines 357-375): take up to
`max_threads * 2 - len(future_to_url)` URLs off `pending` and submit
the not-yet-visited ones. -/
def refillAux (cfg : ScraperConfig) : Nat → RunState → RunState
  | 0, st => st
  | fuel + 1, st =>
    if st.pending ≠ [] ∧ st.results.length + st.inflight.length < cfg.max_pages then
      let budget := cfg.max_threads * 2 - st.inflight.length
      let toAdd := st.pending.take budget
      if toAdd = [] then st
      else
        let vf := submitUrls st.visited st.inflight toAdd
        refillAux cfg fuel
          { st with visited := vf.1, inflight := vf.2,
                    pending := st.pending.drop budget }
    else st

/-- The `while pending_urls and completed + len(future_to_url) <
max_pages` refill loop.  Every iteration that does not exit removes at
least one URL from `pending`, so `pending.length` bounds the number of
iterations and serves as fuel. -/
def refill (cfg : ScraperConfig) (st : RunState) : RunState :=
  refillAux cfg st.pending.length st

/-- Recursive discovery on a completed result (lines 346-350). -/
def discoverStep (cfg : ScraperConfig) (data : PageResult)
    (st : RunState) : RunState :=
  if cfg.mode = "recursive" ∧ data.status = "success" then
    { st with pending := offerLinks st.visited st.pending data.extracted_links }
  else st

/-- Handling of one completed future (lines 328-375): remove the URL
selected by the schedule entry from the in-flight set, record its
`PageResult`, run recursive discovery on success, then refill the pool
in recursive mode. -/
def runStep (world : World) (cfg : ScraperConfig) (i : Nat)
    (st : RunState) : RunState :=
  if st.inflight.length = 0 then st
  else
    let idx := i % st.inflight.length
    let url := st.inflight.getD idx ""
    let data := processUrl world cfg url
    let st' := discoverStep cfg data
      { st with inflight := st.inflight.eraseIdx idx,
                results := st.results ++ [data] }
    if cfg.mode = "recursive" then refill cfg st' else st'

/-- The `while future_to_url:` loop.  The schedule fixes the order in
which the worker pool's futures complete; the loop stops when the
schedule is exhausted or no work is in flight. -/
def runLoop (world : World) (cfg : ScraperConfig) :
    List Nat → RunState → RunState
  | [], st => st
  | i :: sched, st =>
    if st.inflight = [] then st
    else runLoop world cfg sched (runStep world cfg i st)

/-- Seeding (lines 286-294): the parsed sitemap populates `pending` in
sitemap mode; recursive mode requires a base URL and seeds exactly it;
an unknown mode leaves `pending` empty. -/
def seedPending (world : World) (cfg : ScraperConfig) :
    Except String (List String) :=
  if cfg.mode = "sitemap" then
    match world.sitemap with
    | .error e => .error e
    | .ok urls => .ok (urls.foldl addSet [])
  else if cfg.mode = "recursive" then
    match cfg.base_url with
    | none => .error "Base URL is required for recursive mode."
    | some b =>
      if b = "" then .error "Base URL is required for recursive mode."
      else .ok [b]
  else .ok []

/-- The initial submission loop (lines 305-321): runs at most once
since it drains `pending` and adds nothing; in recursive mode it is
skipped entirely when `max_pages = 0`. -/
def initialSubmit (cfg : ScraperConfig) (pending : List String) : RunState :=
  if pending ≠ [] ∧ (cfg.mode = "sitemap" ∨ 0 < cfg.max_pages) then
    let vf := submitUrls [] [] pending
    { visited := vf.1, pending := [], inflight := vf.2, results := [] }
  else
    { visited := [], pending := pending, inflight := [], results := [] }

/-- The files the run writes: one `references/<filename>` per
successful result, then SKILL.md, README.md, the metadata snapshot and
the zip archive (lines 377-381 and `process_url` line 194). -/
def runWrites (cfg : ScraperConfig) (results : List PageResult) : List String :=
  results.filterMap
      (fun r => if r.status = "success" then some ("references/" ++ r.filename) else none)
    ++ ["SKILL.md", "README.md", "config.json", "crawl_data.json",
        slugify cfg.skill_name ++ ".zip"]

/-- A completed run: final scheduler state plus the output files. -/
structure RunOutcome where
  state : RunState
  writes : List String
deriving DecidableEq, Repr

/-- `ScraperEngine.run`: seed, submit the initial batch, drain
completions under the given schedule, then produce the bundle.  A
seeding failure propagates (`raise`) before any bundle file is
written. -/
def runEngine (world : World) (cfg : ScraperConfig) (sched : List Nat) :
    Except String RunOutcome :=
  match seedPending world cfg with
  | .error e => .error e
  | .ok pending =>
    let st := runLoop world cfg sched (initialSubmit cfg pending)
    .ok ⟨st, runWrites cfg st.results⟩

/-! ## Concrete scenario data -/

/-- A page with the given title and anchor hrefs. -/
def okPage (t : String) (hs : List String) : Except String Page :=
  .ok { titleTag := some (some t), hrefs := hs }

/-- Recursive-mode scenario world: the seed page links to five
internal pages, each of which links nowhere. -/
def worldRec : World :=
  { sitemap := .ok [],
    page := fun u =>
      if u = "http://example.com/" then
        okPage "Home" ["/p1", "/p2", "/p3", "/p4", "/p5"]
      else if u ∈ ["http://example.com/p1", "http://example.com/p2",
                   "http://example.com/p3", "http://example.com/p4",
                   "http://example.com/p5"] then
        okPage ("Page " ++ u) []
      else .error "404" }

/-- Recursive crawl from the seed with `max_pages = 2` and the default
five worker threads. -/
def cfgRec : ScraperConfig :=
  { mode := "recursive", base_url := some "http://example.com/",
    max_pages := 2, max_threads := 5 }

/-- Outcome of the recursive scenario run (completions in pool order). -/
def recOut : RunOutcome :=
  (runEngine worldRec cfgRec [0, 0, 0, 0, 0, 0]).toOption.getD ⟨{}, []⟩

/-- A sitemap with three distinct URLs (one listed twice), every page
fetchable. -/
def worldMap : World :=
  { sitemap := .ok ["http://a.com/x", "http://a.com/y", "http://a.com/x",
                    "http://a.com/z"],
    page := fun _ => okPage "T" [] }

/-- Sitemap-mode configuration with a page ceiling of 1. -/
def cfgMap : ScraperConfig := { mode := "sitemap", max_pages := 1 }

/-- Outcome of the sitemap scenario run. -/
def mapOut : RunOutcome :=
  (runEngine worldMap cfgMap [0, 0, 0]).toOption.getD ⟨{}, []⟩

/-- A world whose sitemap fetch raises (HTTP 404). -/
def worldMap404 : World :=
  { sitemap := .error "404 Client Error", page := fun _ => .error "404" }

/-- A fetchable but unparsable sitemap response: no `<loc>` elements,
and no text line starts with `http`. -/
def respGarbage : SitemapResponse :=
  { locTexts := [], textLines := ["<<<garbage", "not a sitemap"] }

/-- The world seen by a run whose sitemap is fetchable but
unparsable. -/
def worldGarbage : World :=
  { sitemap := fetchSitemapUrls (.ok respGarbage),
    page := fun _ => .error "404" }

/-- Outcome of the unparsable-sitemap run. -/
def garbageOut : RunOutcome :=
  (runEngine worldGarbage cfgMap [0]).toOption.getD ⟨{}, []⟩

/-- A sitemap world with one fetchable URL and one URL whose fetch
raises. -/
def worldMix : World :=
  { sitemap := .ok ["http://a.com/x", "http://a.com/bad"],
    page := fun u =>
      if u = "http://a.com/bad" then .error "boom" else okPage "Ok Page" [] }

/-- Outcome of the mixed success/failure sitemap run. -/
def mixOut : RunOutcome :=
  (runEngine worldMix cfgMap [0, 0]).toOption.getD ⟨{}, []⟩

/-- Recursive-mode configuration used for the link-extraction claims. -/
def cfgExt : ScraperConfig :=
  { mode := "recursive", base_url := some "http://example.com/" }

/-- A world with a single page titled `a_b` (an underscore title). -/
def worldUnderscore : World :=
  { sitemap := .ok ["http://t.com/a"],
    page := fun _ => okPage "a_b" [] }

/-! ## C1 — the recursive page ceiling

The refill loop checks `completed_count + len(future_to_url) <
max_pages` only when entering an iteration, but its inner batch
collector fills the pool up to `max_threads * 2` slots without
consulting `max_pages`, so a single refill can blow through the
ceiling.  In the specified situation (`max_pages = 2`, seed page with
five fresh links, default `max_threads = 5`) all five links are
submitted at the first refill and six PageResults are produced. -/

/-- C1: a recursive run with `max_pages = 2` whose seed page links to
five internal pages produces six PageResults, not two — the dispatch
total is not bounded by `max_pages`. -/
theorem recursive_run_exceeds_max_pages :
    runEngine worldRec cfgRec [0, 0, 0, 0, 0, 0] = .ok recOut ∧
    recOut.state.results.length = 6 ∧
    cfgRec.max_pages = 2 ∧
    recOut.state.inflight = [] := by
  refine ⟨rfl, by decide, rfl, by decide⟩

/-! ## C4 — fatal seeding errors

Only a *raising* sitemap fetch (`session.get` failure,
`raise_for_status` on HTTP 404) aborts the run.  An unparsable
sitemap never raises: `BeautifulSoup` silently finds no `<loc>` tags,
the `html.parser` fallback does the same, the plain-text fallback
finds no `http` lines, and `fetch_sitemap_urls` returns `[]` — after
which the run completes normally and writes the full bundle with zero
page results. -/

/-- Helper: a loop iteration with no in-flight work changes nothing. -/
theorem runLoop_of_no_inflight (world : World) (cfg : ScraperConfig) :
    ∀ (sched : List Nat) (st : RunState), st.inflight = [] →
      runLoop world cfg sched st = st := by
  intro sched
  cases sched with
  | nil => intro st _; rfl
  | cons i rest => intro st h; rw [runLoop, if_pos h]

/-- C4 counterexample: a fetchable but unparsable sitemap does not
raise — seeding yields the empty URL list and the run returns
successfully with the complete bundle (SKILL.md, README.md, metadata,
zip) written, contradicting the claimed fatal error for the
unparsable case. -/
theorem sitemap_unparsable_counterexample :
    fetchSitemapUrls (.ok respGarbage) = .ok [] ∧
    runEngine worldGarbage cfgMap [0] = .ok garbageOut ∧
    garbageOut.state.results = [] ∧
    garbageOut.writes =
      ["SKILL.md", "README.md", "config.json", "crawl_data.json",
       "generated-skill.zip"] := by
  refine ⟨rfl, rfl, rfl, rfl⟩

/-- C4 amended: a sitemap-mode run whose sitemap fetch raises
re-raises that error before any bundle file (which exists only inside
a successful `RunOutcome`) is produced; an unparsable but fetchable
sitemap instead parses to the empty URL list (no `<loc>` texts, no
stripped line starting with `http`), and a run seeded with the empty
list completes, producing a bundle with zero page results. -/
theorem sitemap_seed_error_amended :
    (∀ (world : World) (cfg : ScraperConfig) (sched : List Nat) (e : String),
        cfg.mode = "sitemap" → world.sitemap = .error e →
        runEngine world cfg sched = .error e) ∧
    (∀ e : String, fetchSitemapUrls (.error e) = .error e) ∧
    (∀ resp : SitemapResponse,
        resp.locTexts = [] →
        (resp.textLines.map pyStrip).filter (fun l => pyStartsWith l "http") = [] →
        fetchSitemapUrls (.ok resp) = .ok []) ∧
    (∀ (world : World) (cfg : ScraperConfig) (sched : List Nat),
        cfg.mode = "sitemap" → world.sitemap = .ok [] →
        ∃ out, runEngine world cfg sched = .ok out ∧
          out.state.results = [] ∧ "SKILL.md" ∈ out.writes) := by
  refine ⟨?_, ?_, ?_, ?_⟩
  · intro world cfg sched e hm hs
    unfold runEngine seedPending
    rw [if_pos hm, hs]
  · intro e
    rfl
  · intro resp hloc htext
    rw [fetchSitemapUrls, hloc]
    simp [htext]
  · intro world cfg sched hm hs
    have hseed : seedPending world cfg = .ok [] := by
      rw [seedPending, if_pos hm, hs]
      rfl
    have hinit : initialSubmit cfg [] = ⟨[], [], [], []⟩ := by
      rw [initialSubmit, if_neg (by simp)]
    refine ⟨⟨runLoop world cfg sched (initialSubmit cfg []),
      runWrites cfg (runLoop world cfg sched (initialSubmit cfg [])).results⟩,
      ?_, ?_, ?_⟩
    · rw [runEngine, hseed]
    · rw [hinit, runLoop_of_no_inflight world cfg sched _ rfl]
    · simp [runWrites]

/-- C4 witness: the amended theorem at the HTTP-404 world (the run
aborts with the fetch error), at a raising fetch, and at the concrete
unparsable response. -/
theorem sitemap_seed_error_amended_witness :
    runEngine worldMap404 cfgMap [0, 0] = .error "404 Client Error" ∧
    fetchSitemapUrls (Except.error "boom") = Except.error "boom" ∧
    fetchSitemapUrls (.ok respGarbage) = .ok [] :=
  ⟨sitemap_seed_error_amended.1 worldMap404 cfgMap [0, 0] "404 Client Error" rfl rfl,
    sitemap_seed_error_amended.2.1 "boom",
    sitemap_seed_error_amended.2.2.1 respGarbage rfl (by decide)⟩

/-! ## C6 — title resolution

The code (lines 175-176) distinguishes three, not two, situations: an
absent `<title>` tag yields the string `"No Title"` (it is truthy, so
the `"Untitled"` fallback never fires for it), a present tag whose
`.string` is `None` or empty yields `"Untitled"`, and otherwise the
text is stripped — so whitespace-only title text resolves to the empty
string, not to `"Untitled"`. -/

/-- The title resolution the amended claim describes. -/
def titleSpec : Option (Option String) → String
  | none => "No Title"
  | some none => "Untitled"
  | some (some s) => if s = "" then "Untitled" else pyStrip s

/-- C6 counterexample: with the title tag absent the resolved title is
`"No Title"`, not the claimed `"Untitled"`; and whitespace-only title
text resolves to `""`, also not `"Untitled"`. -/
theorem title_fallback_counterexample :
    resolveTitle none = "No Title" ∧
    "No Title" ≠ "Untitled" ∧
    resolveTitle (some (some "   ")) = "" ∧
    "" ≠ "Untitled" := by
  refine ⟨rfl, by decide, rfl, by decide⟩

/-- C6 amended: the resolved title is the stripped title text when the
tag is present with non-empty text (so whitespace-only text gives
`""`), `"Untitled"` when the tag's text is `None` or empty, and
`"No Title"` when the tag is absent. -/
theorem title_resolution :
    (∀ o, resolveTitle o = titleSpec o) ∧
    resolveTitle (some (some "  Hi  ")) = "Hi" := by
  constructor
  · intro o
    rcases o with _ | ts
    · rfl
    · rcases ts with _ | s <;> rfl
  · rfl

/-! ## C9 — progress notification

The callback sits behind a 0.1-second throttle (`current_time -
last_update_time > 0.1`), so two URLs completing within 0.1 s of each
other produce a single invocation: "at least once per completed URL"
fails.  What does hold: at most one invocation per completion, an
invocation exactly on the completions observed more than 0.1 s after
the previous invocation, and every reported fraction lies in `[0, 1]`. -/

/-- C9 counterexample: two completions 0.05 s apart yield one
invocation, fewer than one per completed URL. -/
theorem progress_throttle_counterexample :
    progressCalls (some 2) [100, 100 + 1 / 20] 0 0 = [1 / 2] ∧
    ([(100 : ℚ), 100 + 1 / 20].length = 2) := by
  constructor
  · show (if (100 : ℚ) - 0 > 1 / 10 then _ else _) = _
    rw [if_pos (by norm_num)]
    show _ :: (if (100 : ℚ) + 1 / 20 - 100 > 1 / 10 then _ else _) = _
    rw [if_neg (by norm_num)]
    norm_num [progressFraction, progressCalls]
  · rfl

/-- C9 amended: every reported fraction is in `[0, 1]`; the callback
fires at most once per completed URL, and exactly once per completed
URL when consecutive completions are observed more than 0.1 s apart. -/
theorem progress_calls_amended (estimate : Option Nat) (ts : List ℚ)
    (completed : Nat) (lastUpdate : ℚ) :
    (∀ q ∈ progressCalls estimate ts completed lastUpdate, 0 ≤ q ∧ q ≤ 1) ∧
    (progressCalls estimate ts completed lastUpdate).length ≤ ts.length ∧
    (List.Chain (fun a b => a + 1 / 10 < b) lastUpdate ts →
      (progressCalls estimate ts completed lastUpdate).length = ts.length) := by
  induction ts generalizing completed lastUpdate with
  | nil => exact ⟨by simp [progressCalls], by simp [progressCalls], by simp [progressCalls]⟩
  | cons t ts ih =>
    have hfrac : ∀ c, 0 ≤ progressFraction estimate c ∧ progressFraction estimate c ≤ 1 := by
      intro c
      rcases estimate with _ | total
      · exact ⟨by norm_num [progressFraction], by norm_num [progressFraction]⟩
      · by_cases h : 0 < total
        · refine ⟨?_, ?_⟩
          · simp only [progressFraction, if_pos h]
            exact le_min (by norm_num) (by positivity)
          · simp only [progressFraction, if_pos h]
            exact min_le_left _ _
        · exact ⟨by norm_num [progressFraction, h], by norm_num [progressFraction, h]⟩
    obtain ⟨ih1, ih2, ih3⟩ := ih (completed + 1) t
    obtain ⟨ih1', ih2', _⟩ := ih (completed + 1) lastUpdate
    by_cases hth : t - lastUpdate > 1 / 10
    · refine ⟨?_, ?_, ?_⟩
      · intro q hq
        rw [progressCalls, if_pos hth] at hq
        rcases List.mem_cons.mp hq with h | h
        · exact h ▸ hfrac _
        · exact ih1 q h
      · rw [progressCalls, if_pos hth]
        simpa using ih2
      · intro hch
        rw [progressCalls, if_pos hth]
        rcases hch with _ | ⟨_, hch⟩
        simp [ih3 hch]
    · refine ⟨?_, ?_, ?_⟩
      · intro q hq
        rw [progressCalls, if_neg hth] at hq
        exact ih1' q hq
      · rw [progressCalls, if_neg hth]
        exact Nat.le_succ_of_le ih2'
      · intro hch
        exfalso
        rcases hch with _ | ⟨hlt, _⟩
        exact hth (by linarith)

/-- C9 witness: with completions more than 0.1 s apart the callback
fires once per completed URL. -/
theorem progress_calls_amended_witness :
    (progressCalls (some 3) [(1 : ℚ), 2] 0 0).length = 2 := by
  have h := (progress_calls_amended (some 3) [(1 : ℚ), 2] 0 0).2.2
  refine h ?_
  refine List.Chain.cons (by norm_num) (List.Chain.cons (by norm_num) List.Chain.nil)

/-! ## C7 — link extraction

The extraction loop filters on the *whole* lower-cased URL ending in
an asset extension (`full_url.lower().endswith(ext)`), not on the URL
path.  A same-domain link whose path ends in `.pdf` but which carries
a query string therefore IS extracted, contradicting the claim's
path-based reading; with the filter read on the whole URL, the loop is
exactly a resolve-then-filter pipeline. -/

/-- C7 counterexample: `/file.pdf?x=1` resolves to a URL whose path
ends in `.pdf`, yet it appears in the extracted-links set — the
extension filter looks at the whole URL (which ends in `1`), not the
path. -/
theorem extract_links_path_counterexample :
    extractLinks cfgExt "http://example.com/a" ["/file.pdf?x=1"] =
      ["http://example.com/file.pdf?x=1"] ∧
    (pyUrlsplit "http://example.com/file.pdf?x=1" "").path = "/file.pdf" ∧
    pyEndsWith (pyUrlsplit "http://example.com/file.pdf?x=1" "").path ".pdf" = true := by
  refine ⟨rfl, rfl, by decide⟩

/-- Helper: the extraction loop is append-accumulating. -/
theorem extractLoop_eq (baseDomain pageUrl : String) (hrefs : List String) :
    ∀ acc, extractLoop baseDomain pageUrl acc hrefs =
      acc ++ (hrefs.map (resolveHref pageUrl)).filter (linkOk baseDomain) := by
  induction hrefs with
  | nil => intro acc; simp [extractLoop]
  | cons href rest ih =>
    intro acc
    rw [extractLoop]
    by_cases h : linkOk baseDomain (resolveHref pageUrl href)
    · rw [if_pos h, ih]
      simp [h]
    · rw [if_neg h, ih]
      simp [h]

/-- C7 amended: in recursive mode the extracted-links list contains
exactly the anchor hrefs that, resolved against the page URL and with
any fragment removed, start with `http`, have a netloc equal to the
base domain or empty, and whose full lower-cased URL does not end in
one of the asset extensions; in particular `/doc.pdf` (asset) and
`https://other.com/page` (cross-domain) are never extracted. -/
theorem extract_links_characterization (cfg : ScraperConfig)
    (pageUrl : String) (hrefs : List String)
    (h : cfg.mode = "recursive") :
    extractLinks cfg pageUrl hrefs =
      (hrefs.map (resolveHref pageUrl)).filter
        (linkOk (pyUrlsplit (cfg.base_url.getD "") "").netloc) ∧
    extractLinks cfgExt "http://example.com/" ["/doc.pdf", "https://other.com/page"] = [] := by
  constructor
  · rw [extractLinks, if_pos h]
    exact extractLoop_eq _ _ _ []
  · rfl

/-- C7 witness: the characterization instantiated on a concrete page
of the recursive scenario world. -/
theorem extract_links_characterization_witness :
    extractLinks cfgExt "http://example.com/a"
        ["/p1", "#sec", "mailto:x@y", "/img.png"] =
      (["/p1", "#sec", "mailto:x@y", "/img.png"].map
          (resolveHref "http://example.com/a")).filter
        (linkOk (pyUrlsplit (cfgExt.base_url.getD "") "").netloc) :=
  (extract_links_characterization cfgExt "http://example.com/a"
    ["/p1", "#sec", "mailto:x@y", "/img.png"] rfl).1

/-! ## C8 — index table deduplication -/

/-- Modelled from the spec: "a table of successful results
deduplicated by filename (first occurrence kept, in original discovery
order)". -/
def indexDedupSpec (seen : List String) : List PageResult → List PageResult
  | [] => []
  | r :: rs =>
    if r.filename ∈ seen then indexDedupSpec seen rs
    else r :: indexDedupSpec (r.filename :: seen) rs

/-- Helper: the SKILL.md row loop equals filtering the successes and
deduplicating by filename, for membership-equivalent seen-sets. -/
theorem skillRowsAux_eq (rs : List PageResult) :
    ∀ s1 s2 : List String, (∀ x, x ∈ s1 ↔ x ∈ s2) →
      skillRowsAux s1 rs =
        (indexDedupSpec s2 (rs.filter (fun r => r.status = "success"))).map renderRow := by
  induction rs with
  | nil => intro s1 s2 _; simp [skillRowsAux, indexDedupSpec]
  | cons r rs ih =>
    intro s1 s2 hseen
    by_cases hst : r.status = "success"
    · by_cases hf : r.filename ∈ s1
      · rw [skillRowsAux, if_neg (by simp [hf]), List.filter_cons_of_pos (by simp [hst]),
          indexDedupSpec, if_pos ((hseen _).mp hf)]
        exact ih s1 s2 hseen
      · rw [skillRowsAux, if_pos ⟨hst, hf⟩, List.filter_cons_of_pos (by simp [hst]),
          indexDedupSpec, if_neg (fun hx => hf ((hseen _).mpr hx)), List.map_cons]
        refine congrArg _ (ih _ _ ?_)
        intro x
        rw [addSet]
        rw [if_neg hf]
        simp only [List.mem_append, List.mem_singleton, List.mem_cons]
        rw [hseen x]
        tauto
    · rw [skillRowsAux, if_neg (by simp [hst]), List.filter_cons_of_neg (by simp [hst])]
      exact ih s1 s2 hseen

/-- Helper: the filenames surviving deduplication are distinct and
avoid the seen-set. -/
theorem indexDedupSpec_filenames_nodup (rs : List PageResult) :
    ∀ seen, ((indexDedupSpec seen rs).map (fun r => r.filename)).Nodup ∧
      ∀ f ∈ (indexDedupSpec seen rs).map (fun r => r.filename), f ∉ seen := by
  induction rs with
  | nil => intro seen; simp [indexDedupSpec]
  | cons r rs ih =>
    intro seen
    by_cases hf : r.filename ∈ seen
    · rw [indexDedupSpec, if_pos hf]
      exact ih seen
    · rw [indexDedupSpec, if_neg hf, List.map_cons]
      obtain ⟨ihnd, ihmem⟩ := ih (r.filename :: seen)
      refine ⟨List.nodup_cons.mpr ⟨fun hx => ?_, ihnd⟩, ?_⟩
      · exact ihmem _ hx (List.mem_cons_self _ _)
      · intro f hfm
        rcases List.mem_cons.mp hfm with h | h
        · exact h ▸ hf
        · exact fun hfs => ihmem f h (List.mem_cons_of_mem _ hfs)

/-- C8: the SKILL.md table holds the successful results deduplicated
by filename, first occurrence kept in result order; the surviving
filenames are pairwise distinct (one row per distinct filename), and
failed results are filtered out before the table is built. -/
theorem index_rows_dedup (results : List PageResult) :
    skillRows results =
      (indexDedupSpec [] (results.filter (fun r => r.status = "success"))).map renderRow ∧
    ((indexDedupSpec [] (results.filter (fun r => r.status = "success"))).map
        (fun r => r.filename)).Nodup := by
  constructor
  · exact skillRowsAux_eq results [] [] (fun _ => Iff.rfl)
  · exact (indexDedupSpec_filenames_nodup _ []).1

/-! ## C5 — filename shape

Python's `\w` keeps the underscore (and `str.lower()` leaves it
alone), so a title such as `a_b` yields the filename `a_b.md`, which
does not match the claimed `^[a-z0-9-]+\.md$`.  The truncation branch
`filename[:100] + ".md"` slices the already-extended name, so a slug
of 98 or 99 characters leaves a stray `.m` or `.` before the final
`.md`; the maximal length is 103 (not 104). -/

/-- The claimed filename pattern `^[a-z0-9-]+\.md$` as a decidable
check. -/
def claimPattern (f : String) : Bool :=
  let d := f.data
  (d.drop (d.length - 3) == ".md".data) &&
    !(d.take (d.length - 3)).isEmpty &&
    (d.take (d.length - 3)).all (fun c => c.isLower || c.isDigit || c = '-')

/-- Characters the slugifier can emit: lower-case letter, digit,
underscore, hyphen. -/
def slugChar (c : Char) : Bool :=
  c.isLower || c.isDigit || c = '_' || c = '-'

/-- Helper: `Char.ofNat` on a small code point keeps the code point. -/
theorem toNat_ofNat_valid (n : Nat) (h : n < 55296) : (Char.ofNat n).toNat = n := by
  rw [Char.ofNat, dif_pos (Or.inl h)]
  rfl

/-- Helper: `isUpper` as a code-point interval. -/
theorem isUpper_iff (c : Char) : c.isUpper = true ↔ 65 ≤ c.toNat ∧ c.toNat ≤ 90 := by
  simp [Char.isUpper, UInt32.le_def, BitVec.le_def, Char.toNat, UInt32.toNat]

/-- Helper: `Char.toLower` either shifts an upper-case letter into
`[97, 122]` or leaves the character unchanged. -/
theorem toLower_cases (c : Char) :
    (65 ≤ c.toNat ∧ c.toNat ≤ 90 ∧ (Char.toLower c).toNat = c.toNat + 32) ∨
    (¬(65 ≤ c.toNat ∧ c.toNat ≤ 90) ∧ Char.toLower c = c) := by
  rw [Char.toLower]
  by_cases h : 65 ≤ c.toNat ∧ c.toNat ≤ 90
  · left
    refine ⟨h.1, h.2, ?_⟩
    rw [if_pos ⟨h.1, h.2⟩]
    exact toNat_ofNat_valid _ (by omega)
  · right
    refine ⟨h, ?_⟩
    rw [if_neg (fun hc => h ⟨hc.1, hc.2⟩)]

/-- Helper: lower-casing never produces an upper-case letter. -/
theorem toLower_not_upper (c : Char) : (Char.toLower c).isUpper = false := by
  rcases toLower_cases c with ⟨_, _, h3⟩ | ⟨h, h2⟩
  · rw [Bool.eq_false_iff]
    intro hu
    rw [isUpper_iff] at hu
    omega
  · rw [h2, Bool.eq_false_iff]
    intro hu
    rw [isUpper_iff] at hu
    exact h hu

/-- Helper: collapsing dash/space runs emits hyphens and non-dash-space
input characters only. -/
theorem mem_collapseDash : ∀ {l : List Char} {c : Char}, c ∈ collapseDash l →
    c = '-' ∨ (c ∈ l ∧ isDashSpace c = false) := by
  intro l
  induction l with
  | nil => intro c hc; simp [collapseDash] at hc
  | cons a as ih =>
    intro c hc
    rw [collapseDash] at hc
    by_cases hd : isDashSpace a
    · rw [if_pos hd] at hc
      have hc' : c = '-' ∨ c ∈ collapseDash as := by
        split at hc
        · next heq =>
          rw [heq] at hc
          rcases List.mem_cons.mp hc with h | h
          · exact Or.inl h
          · exact Or.inr (heq ▸ List.mem_cons_of_mem _ h)
        · exact List.mem_cons.mp hc
      rcases hc' with h | h
      · exact Or.inl h
      · rcases ih h with h' | ⟨hmem, hds⟩
        · exact Or.inl h'
        · exact Or.inr ⟨List.mem_cons_of_mem _ hmem, hds⟩
    · rw [if_neg hd] at hc
      rcases List.mem_cons.mp hc with h | h
      · subst h
        exact Or.inr ⟨List.mem_cons_self _ _, Bool.eq_false_iff.mpr hd⟩
      · rcases ih h with h' | ⟨hmem, hds⟩
        · exact Or.inl h'
        · exact Or.inr ⟨List.mem_cons_of_mem _ hmem, hds⟩

/-- Helper: stripping border hyphens only removes characters. -/
theorem mem_stripDash {c : Char} {l : List Char} (h : c ∈ stripDash l) : c ∈ l := by
  rw [stripDash, List.mem_reverse] at h
  have h1 := (List.dropWhile_sublist _).subset h
  rw [List.mem_reverse] at h1
  exact (List.dropWhile_sublist _).subset h1

/-- Helper: every character the slugifier emits is a lower-case
letter, digit, underscore or hyphen. -/
theorem slug_chars {t : List Char} : ∀ c ∈ slugifyL t, slugChar c = true := by
  intro c hc
  have huntitled : ∀ x ∈ "untitled".data, slugChar x = true := by decide
  simp only [slugifyL] at hc
  split at hc
  · exact huntitled c hc
  · split at hc
    · exact huntitled c hc
    · rcases mem_collapseDash (mem_stripDash hc) with h | ⟨hmem, hds⟩
      · rw [h]; decide
      · rw [List.mem_filter] at hmem
        obtain ⟨hmap, hp⟩ := hmem
        obtain ⟨c0, _, rfl⟩ := List.mem_map.mp hmap
        have hds1 : decide (Char.toLower c0 = '-') = false := by
          simp only [isDashSpace, Bool.or_eq_false_iff] at hds
          exact hds.1
        have hds2 : isSpaceA (Char.toLower c0) = false := by
          simp only [isDashSpace, Bool.or_eq_false_iff] at hds
          exact hds.2
        rw [hds2, hds1, Bool.or_false, Bool.or_false, isWordCharA,
          Char.isAlphanum, Char.isAlpha, toLower_not_upper c0, Bool.false_or] at hp
        have hcase : (Char.toLower c0).isLower = true ∨
            (Char.toLower c0).isDigit = true ∨ Char.toLower c0 = '_' := by
          rcases Bool.or_eq_true_iff.mp hp with h | h
          · rcases Bool.or_eq_true_iff.mp h with h' | h'
            · exact Or.inl h'
            · exact Or.inr (Or.inl h')
          · exact Or.inr (Or.inr (of_decide_eq_true h))
        rcases hcase with h | h | h <;> simp [slugChar, h]

/-- Helper: the slugifier never returns the empty string. -/
theorem slugifyL_ne_nil (t : List Char) : slugifyL t ≠ [] := by
  simp only [slugifyL]
  split
  · decide
  · split
    · decide
    · assumption

/-- C5 counterexample: the title `a_b` gives the successful filename
`a_b.md`, which neither matches `^[a-z0-9-]+\.md$` nor equals
`untitled.md`; and a 98-character title leaves a stray `.m` before the
`.md` extension. -/
theorem filename_pattern_counterexample :
    (processUrl worldUnderscore cfgMap "http://t.com/a").status = "success" ∧
    (processUrl worldUnderscore cfgMap "http://t.com/a").filename = "a_b.md" ∧
    claimPattern "a_b.md" = false ∧
    ("a_b.md" : String) ≠ "untitled.md" ∧
    claimPattern (mkFilename (String.mk (List.replicate 98 'a'))) = false := by
  refine ⟨rfl, rfl, by decide, by decide, by decide⟩

/-- C5 amended: for an ASCII title the generated filename is at most
103 characters, ends in `.md`, and its stem consists of lower-case
letters, digits, underscores and hyphens — plus possibly a stray `.`
(or `.m`) introduced when truncation slices the extension; when the
slug is at most 97 characters no truncation happens and the stem is
exactly the slug, free of dots. -/
theorem filename_shape (t : List Char) (hascii : ∀ c ∈ t, c.toNat < 128) :
    (mkFilenameL t).length ≤ 103 ∧
    (∃ stem, mkFilenameL t = stem ++ ".md".data ∧ stem ≠ [] ∧
      ∀ c ∈ stem, slugChar c = true ∨ c = '.') ∧
    ((slugifyL t).length ≤ 97 →
      mkFilenameL t = slugifyL t ++ ".md".data ∧
      ∀ c ∈ slugifyL t, slugChar c = true) := by
  have hmd : ∀ c ∈ ".md".data, slugChar c = true ∨ c = '.' := by decide
  rw [mkFilenameL]
  by_cases hlen : (slugifyL t ++ ".md".data).length > 100
  · rw [if_pos hlen]
    have htake : ((slugifyL t ++ ".md".data).take 100).length = 100 := by
      rw [List.length_take]
      omega
    refine ⟨?_, ?_, ?_⟩
    · simp only [List.length_append, htake]
      decide
    · refine ⟨(slugifyL t ++ ".md".data).take 100, rfl, ?_, ?_⟩
      · intro hnil
        rw [hnil] at htake
        simp at htake
      · intro c hcmem
        have hc' : c ∈ slugifyL t ++ ".md".data := List.take_subset _ _ hcmem
        rcases List.mem_append.mp hc' with h | h
        · exact Or.inl (slug_chars c h)
        · exact hmd c h
    · intro hslug
      exfalso
      rw [List.length_append] at hlen
      have h3 : (".md".data).length = 3 := rfl
      omega
  · rw [if_neg hlen]
    refine ⟨?_, ?_, ?_⟩
    · omega
    · exact ⟨slugifyL t, rfl, slugifyL_ne_nil t, fun c h => Or.inl (slug_chars c h)⟩
    · exact fun _ => ⟨rfl, fun c h => slug_chars c h⟩

/-- C5 witness: the shape theorem instantiated on a concrete ASCII
title. -/
theorem filename_shape_witness :
    (∀ c ∈ "My_Page 42".data, c.toNat < 128) ∧
    (mkFilenameL "My_Page 42".data).length ≤ 103 :=
  ⟨by decide, (filename_shape "My_Page 42".data (by decide)).1⟩

/-! ## The frontier invariant (C2, C10, C3)

`visited` is duplicate-free and is, up to ordering, exactly the URLs
ever handed to a worker (the completed ones in `results` plus the ones
still in flight); `pending` never holds a visited URL. -/

/-- The frontier invariant of the driving loop. -/
def Inv (st : RunState) : Prop :=
  st.visited.Nodup ∧ st.pending.Nodup ∧
  st.visited.Perm (st.results.map (fun r => r.url) ++ st.inflight) ∧
  ∀ u ∈ st.pending, u ∉ st.visited

/-- Helper: membership in a Python-set insertion. -/
theorem mem_addSet {l : List String} {u x : String} :
    x ∈ addSet l u ↔ x ∈ l ∨ x = u := by
  rw [addSet]
  by_cases h : u ∈ l
  · rw [if_pos h]
    constructor
    · exact Or.inl
    · rintro (hx | rfl)
      · exact hx
      · exact h
  · rw [if_neg h]
    simp

/-- Helper: Python-set insertion keeps the list duplicate-free. -/
theorem addSet_nodup {l : List String} {u : String} (h : l.Nodup) :
    (addSet l u).Nodup := by
  rw [addSet]
  by_cases hm : u ∈ l
  · rwa [if_pos hm]
  · rw [if_neg hm]
    refine List.Nodup.append h (List.nodup_singleton u) ?_
    intro a ha hb
    rw [List.mem_singleton] at hb
    exact hm (hb ▸ ha)

/-- Helper: building a Python set from a list gives a duplicate-free
list. -/
theorem pySet_nodup (urls : List String) :
    ∀ acc : List String, acc.Nodup → (urls.foldl addSet acc).Nodup := by
  induction urls with
  | nil => intro acc h; exact h
  | cons u us ih => intro acc h; exact ih _ (addSet_nodup h)

/-- Helper: the submission loop appends the same block of fresh URLs
to `visited` and to the in-flight set; the block is duplicate-free,
drawn from the submitted list, and disjoint from the old `visited`. -/
theorem submitUrls_spec (ts : List String) :
    ∀ v fl : List String, ∃ news,
      submitUrls v fl ts = (v ++ news, fl ++ news) ∧ news.Nodup ∧
      ∀ x ∈ news, x ∈ ts ∧ x ∉ v := by
  induction ts with
  | nil =>
    intro v fl
    exact ⟨[], by simp [submitUrls], List.nodup_nil, by simp⟩
  | cons u us ih =>
    intro v fl
    by_cases hu : u ∈ v
    · obtain ⟨news, heq, hnd, hmem⟩ := ih v fl
      refine ⟨news, ?_, hnd, ?_⟩
      · rw [submitUrls, if_pos hu, heq]
      · exact fun x hx => ⟨List.mem_cons_of_mem _ (hmem x hx).1, (hmem x hx).2⟩
    · obtain ⟨news, heq, hnd, hmem⟩ := ih (v ++ [u]) (fl ++ [u])
      refine ⟨u :: news, ?_, ?_, ?_⟩
      · rw [submitUrls, if_neg hu, heq]
        simp
      · refine List.nodup_cons.mpr ⟨fun hx => ?_, hnd⟩
        exact (hmem u hx).2 (by simp)
      · intro x hx
        rcases List.mem_cons.mp hx with rfl | hx'
        · exact ⟨List.mem_cons_self _ _, hu⟩
        · refine ⟨List.mem_cons_of_mem _ (hmem x hx').1, fun hv => ?_⟩
          exact (hmem x hx').2 (by simp [hv])

/-- Helper: submitting a duplicate-free batch of unvisited URLs
appends exactly that batch. -/
theorem submitUrls_all_new (ts : List String) :
    ∀ v fl : List String, ts.Nodup → (∀ x ∈ ts, x ∉ v) →
      submitUrls v fl ts = (v ++ ts, fl ++ ts) := by
  induction ts with
  | nil => intro v fl _ _; simp [submitUrls]
  | cons u us ih =>
    intro v fl hnd hnew
    rw [submitUrls, if_neg (hnew u (List.mem_cons_self _ _)),
      ih (v ++ [u]) (fl ++ [u]) (List.nodup_cons.mp hnd).2 ?_]
    · simp
    · intro x hx
      simp only [List.mem_append, List.mem_singleton]
      rintro (hv | rfl)
      · exact hnew x (List.mem_cons_of_mem _ hx) hv
      · exact (List.nodup_cons.mp hnd).1 hx

/-- Helper: recursive discovery only ever queues fresh, unvisited
URLs. -/
theorem offerLinks_spec (links : List String) :
    ∀ (v p : List String), p.Nodup → (∀ u ∈ p, u ∉ v) →
      (offerLinks v p links).Nodup ∧ ∀ u ∈ offerLinks v p links, u ∉ v := by
  induction links with
  | nil => intro v p hp hdisj; exact ⟨hp, hdisj⟩
  | cons link ls ih =>
    intro v p hp hdisj
    rw [offerLinks] at *
    simp only [List.foldl_cons]
    by_cases hv : link ∈ v
    · rw [if_pos hv]
      exact ih v p hp hdisj
    · rw [if_neg hv]
      refine ih v _ (addSet_nodup hp) ?_
      intro u hu
      rcases mem_addSet.mp hu with h | rfl
      · exact hdisj u h
      · exact hv

/-- Helper: a list is a permutation of its element at `i` consed onto
the remainder after erasing index `i`. -/
theorem perm_getD_eraseIdx (l : List String) (i : Nat) (h : i < l.length) :
    l.Perm (l.getD i "" :: l.eraseIdx i) := by
  rw [List.getD_eq_getElem?_getD, List.getElem?_eq_getElem h, Option.getD_some,
    List.eraseIdx_eq_take_drop_succ]
  conv_lhs => rw [← List.take_append_drop i l, List.drop_eq_getElem_cons h]
  exact List.perm_middle

/-- Helper: `process_url` reports the URL it was given. -/
theorem processUrl_url (world : World) (cfg : ScraperConfig) (u : String) :
    (processUrl world cfg u).url = u := by
  rw [processUrl]
  cases world.page u <;> rfl

/-- Helper: the refill loop preserves the frontier invariant. -/
theorem refillAux_inv (cfg : ScraperConfig) :
    ∀ (fuel : Nat) (st : RunState), Inv st → Inv (refillAux cfg fuel st) := by
  intro fuel
  induction fuel with
  | zero => intro st h; exact h
  | succ n ih =>
    intro st h
    obtain ⟨hvn, hpn, hperm, hdisj⟩ := h
    simp only [refillAux]
    split
    · split
      · exact ⟨hvn, hpn, hperm, hdisj⟩
      · refine ih _ ?_
        obtain ⟨news, heq, hnnd, hnmem⟩ :=
          submitUrls_spec (st.pending.take (cfg.max_threads * 2 - st.inflight.length))
            st.visited st.inflight
        rw [heq]
        dsimp only [Inv]
        refine ⟨?_, ?_, ?_, ?_⟩
        · refine List.Nodup.append hvn hnnd ?_
          intro a hav han
          exact (hnmem a han).2 hav
        · exact List.Nodup.sublist (List.drop_sublist _ _) hpn
        · rw [← List.append_assoc]
          exact hperm.append_right news
        · intro u hu
          simp only [List.mem_append]
          rintro (hv | hn)
          · exact hdisj u ((List.drop_sublist _ _).subset hu) hv
          · have hut := (hnmem u hn).1
            exact List.disjoint_take_drop hpn
              (le_refl (cfg.max_threads * 2 - st.inflight.length)) hut hu
    · exact ⟨hvn, hpn, hperm, hdisj⟩

/-- Helper: recursive discovery preserves the frontier invariant. -/
theorem discoverStep_inv (cfg : ScraperConfig) (data : PageResult)
    (st : RunState) (h : Inv st) : Inv (discoverStep cfg data st) := by
  rw [discoverStep]
  split
  · obtain ⟨h1, h2, h3, h4⟩ := h
    obtain ⟨ho1, ho2⟩ := offerLinks_spec data.extracted_links st.visited st.pending h2 h4
    exact ⟨h1, ho1, h3, ho2⟩
  · exact h

/-- Helper: recording a completed future preserves the frontier
invariant. -/
theorem completion_inv (world : World) (cfg : ScraperConfig) (i : Nat)
    (st : RunState) (h : Inv st) (hlen : st.inflight.length ≠ 0) :
    Inv { st with inflight := st.inflight.eraseIdx (i % st.inflight.length),
                  results := st.results ++
                    [processUrl world cfg (st.inflight.getD (i % st.inflight.length) "")] } := by
  obtain ⟨hvn, hpn, hperm, hdisj⟩ := h
  have hidx : i % st.inflight.length < st.inflight.length :=
    Nat.mod_lt _ (Nat.pos_of_ne_zero hlen)
  refine ⟨hvn, hpn, ?_, hdisj⟩
  dsimp only
  refine hperm.trans ?_
  rw [List.map_append, List.map_singleton, processUrl_url, List.append_assoc,
    List.singleton_append]
  exact (perm_getD_eraseIdx _ _ hidx).append_left _

/-- Helper: one completion-processing step preserves the frontier
invariant. -/
theorem runStep_inv (world : World) (cfg : ScraperConfig) (i : Nat)
    (st : RunState) (h : Inv st) : Inv (runStep world cfg i st) := by
  simp only [runStep]
  split
  · exact h
  · next hlen =>
    have hc := discoverStep_inv cfg
      (processUrl world cfg (st.inflight.getD (i % st.inflight.length) "")) _
      (completion_inv world cfg i st h hlen)
    split
    · rw [refill]
      exact refillAux_inv cfg _ _ hc
    · exact hc

/-- Helper: the completion loop preserves the frontier invariant. -/
theorem runLoop_inv (world : World) (cfg : ScraperConfig) :
    ∀ (sched : List Nat) (st : RunState), Inv st →
      Inv (runLoop world cfg sched st) := by
  intro sched
  induction sched with
  | nil => intro st h; exact h
  | cons i rest ih =>
    intro st h
    rw [runLoop]
    split
    · exact h
    · exact ih _ (runStep_inv world cfg i st h)

/-- Helper: the initial submission establishes the frontier
invariant from a duplicate-free seed. -/
theorem initialSubmit_inv (cfg : ScraperConfig) (pending : List String)
    (h : pending.Nodup) : Inv (initialSubmit cfg pending) := by
  rw [initialSubmit]
  split
  · obtain ⟨news, heq, hnnd, hnmem⟩ := submitUrls_spec pending [] []
    rw [heq]
    simp only [List.nil_append]
    exact ⟨hnnd, List.nodup_nil, by simp, by simp⟩
  · exact ⟨List.nodup_nil, h, by simp, by simp⟩

/-- Helper: a successful seeding yields a duplicate-free pending
set. -/
theorem seedPending_nodup (world : World) (cfg : ScraperConfig)
    (pending : List String) (h : seedPending world cfg = .ok pending) :
    pending.Nodup := by
  rw [seedPending] at h
  split at h
  · cases hsm : world.sitemap with
    | error e => rw [hsm] at h; cases h
    | ok urls =>
      rw [hsm] at h
      injection h with h'
      exact h' ▸ pySet_nodup urls [] List.nodup_nil
  · split at h
    · split at h
      · cases h
      · split at h
        · cases h
        · injection h with h'
          exact h' ▸ List.nodup_cons.mpr ⟨by simp, List.nodup_nil⟩
    · injection h with h'
      exact h' ▸ List.nodup_nil

/-- C2: on any completed or partial run, no URL is ever dispatched
twice (the dispatched URLs — completed results plus in-flight work —
are pairwise distinct), `visited` is exactly the dispatched set up to
order, and no pending URL is visited. -/
theorem run_dispatch_dedup (world : World) (cfg : ScraperConfig)
    (sched : List Nat) (out : RunOutcome)
    (h : runEngine world cfg sched = .ok out) :
    (out.state.results.map (fun r => r.url) ++ out.state.inflight).Nodup ∧
    out.state.visited.Perm
      (out.state.results.map (fun r => r.url) ++ out.state.inflight) ∧
    ∀ u ∈ out.state.pending, u ∉ out.state.visited := by
  rw [runEngine] at h
  cases hseed : seedPending world cfg with
  | error e =>
    rw [hseed] at h
    exact absurd h (by simp)
  | ok pending =>
    rw [hseed] at h
    injection h with h'
    obtain ⟨hvn, hpn, hperm, hdisj⟩ :=
      runLoop_inv world cfg sched (initialSubmit cfg pending)
        (initialSubmit_inv cfg pending (seedPending_nodup world cfg pending hseed))
    rw [← h']
    exact ⟨hperm.nodup hvn, hperm, hdisj⟩

/-- C2 witness: the dedup invariant on a finished concrete sitemap
run. -/
theorem run_dispatch_dedup_witness :
    (mixOut.state.results.map (fun r => r.url) ++ mixOut.state.inflight).Nodup :=
  (run_dispatch_dedup worldMix cfgMap [0, 0] mixOut rfl).1

/-! ## C10 — sitemap mode ignores the page ceiling

The initial-submission condition (line 305) short-circuits on
`mode == "sitemap"`, so every distinct sitemap URL is submitted no
matter what `max_pages` says, and the refill loop (the only other
place the ceiling is consulted) runs only in recursive mode. -/

/-- Helper: outside recursive mode a step touches neither `visited`
nor `pending`. -/
theorem runStep_mode_const (world : World) (cfg : ScraperConfig) (i : Nat)
    (st : RunState) (h : cfg.mode ≠ "recursive") :
    (runStep world cfg i st).visited = st.visited ∧
    (runStep world cfg i st).pending = st.pending := by
  simp only [runStep]
  split
  · exact ⟨rfl, rfl⟩
  · rw [discoverStep]
    split
    · next hc => exact absurd hc.1 h
    · exact ⟨rfl, rfl⟩

/-- Helper: outside recursive mode the whole completion loop touches
neither `visited` nor `pending`. -/
theorem runLoop_mode_const (world : World) (cfg : ScraperConfig)
    (h : cfg.mode ≠ "recursive") :
    ∀ (sched : List Nat) (st : RunState),
      (runLoop world cfg sched st).visited = st.visited ∧
      (runLoop world cfg sched st).pending = st.pending := by
  intro sched
  induction sched with
  | nil => intro st; exact ⟨rfl, rfl⟩
  | cons i rest ih =>
    intro st
    rw [runLoop]
    split
    · exact ⟨rfl, rfl⟩
    · obtain ⟨h1, h2⟩ := ih (runStep world cfg i st)
      obtain ⟨h3, h4⟩ := runStep_mode_const world cfg i st h
      exact ⟨h1.trans h3, h2.trans h4⟩

/-- C10: a finished sitemap-mode run dispatches every distinct sitemap
URL — the result list is, up to completion order, exactly the
deduplicated sitemap, for every `max_pages` value. -/
theorem sitemap_bypasses_max_pages (world : World) (cfg : ScraperConfig)
    (sched : List Nat) (urls : List String) (out : RunOutcome)
    (hm : cfg.mode = "sitemap") (hs : world.sitemap = .ok urls)
    (h : runEngine world cfg sched = .ok out)
    (hdone : out.state.inflight = []) :
    (out.state.results.map (fun r => r.url)).Perm (urls.foldl addSet []) := by
  have hne : cfg.mode ≠ "recursive" := by rw [hm]; decide
  have hseed : seedPending world cfg = .ok (urls.foldl addSet []) := by
    rw [seedPending, if_pos hm, hs]
  rw [runEngine, hseed] at h
  injection h with h'
  subst h'
  dsimp only at hdone ⊢
  have hpn : (urls.foldl addSet []).Nodup := pySet_nodup urls [] List.nodup_nil
  by_cases hnil : urls.foldl addSet [] = []
  · rw [initialSubmit, if_neg (by simp [hnil])] at hdone ⊢
    rw [runLoop_of_no_inflight world cfg sched _ rfl]
    simp [hnil]
  · have hcond : urls.foldl addSet [] ≠ [] ∧
        (cfg.mode = "sitemap" ∨ 0 < cfg.max_pages) := ⟨hnil, Or.inl hm⟩
    rw [initialSubmit, if_pos hcond,
      submitUrls_all_new _ [] [] hpn (by simp)] at hdone ⊢
    simp only [List.nil_append] at hdone ⊢
    obtain ⟨_, _, hperm, _⟩ :=
      runLoop_inv world cfg sched
        ⟨urls.foldl addSet [], [], urls.foldl addSet [], []⟩
        ⟨hpn, List.nodup_nil, by simp, by simp⟩
    have hvis := (runLoop_mode_const world cfg hne sched
      ⟨urls.foldl addSet [], [], urls.foldl addSet [], []⟩).1
    rw [hvis, hdone, List.append_nil] at hperm
    exact hperm.symm

/-- C10 witness: a sitemap of three distinct URLs with `max_pages = 1`
still yields all three PageResults. -/
theorem sitemap_bypasses_max_pages_witness :
    (mapOut.state.results.map (fun r => r.url)).Perm
      (["http://a.com/x", "http://a.com/y", "http://a.com/x",
        "http://a.com/z"].foldl addSet []) ∧
    cfgMap.max_pages = 1 ∧ mapOut.state.results.length = 3 :=
  ⟨sitemap_bypasses_max_pages worldMap cfgMap [0, 0, 0]
      ["http://a.com/x", "http://a.com/y", "http://a.com/x", "http://a.com/z"]
      mapOut rfl rfl rfl (by decide),
    rfl, by decide⟩

/-! ## C3 — per-URL failure capture -/

/-- C3: an exception during a URL's fetch/transform is caught inside
`process_url` and becomes that URL's `failed` PageResult carrying the
error text; it never escapes the worker, and a run whose seeding
succeeded always finishes and produces its bundle (SKILL.md included)
whatever the per-URL outcomes. -/
theorem per_url_failure_captured :
    (∀ (world : World) (cfg : ScraperConfig) (u e : String),
        world.page u = .error e →
        processUrl world cfg u =
          { url := u, title := "Error", filename := "", status := "failed",
            error := some e, extracted_links := [] }) ∧
    (∀ (world : World) (cfg : ScraperConfig) (sched : List Nat)
        (urls : List String),
        cfg.mode = "sitemap" → world.sitemap = .ok urls →
        ∃ out, runEngine world cfg sched = .ok out ∧
          "SKILL.md" ∈ out.writes) := by
  constructor
  · intro world cfg u e h
    rw [processUrl, h]
  · intro world cfg sched urls hm hs
    refine ⟨⟨runLoop world cfg sched (initialSubmit cfg (urls.foldl addSet [])),
      runWrites cfg (runLoop world cfg sched
        (initialSubmit cfg (urls.foldl addSet []))).results⟩, ?_, ?_⟩
    · rw [runEngine, seedPending, if_pos hm, hs]
    · simp [runWrites]

/-- C3 witness: the URL whose fetch raises `boom` is recorded as a
`failed` result and the run still finishes with a bundle. -/
theorem per_url_failure_captured_witness :
    (processUrl worldMix cfgMap "http://a.com/bad").status = "failed" ∧
    (processUrl worldMix cfgMap "http://a.com/bad").error = some "boom" ∧
    runEngine worldMix cfgMap [0, 0] = .ok mixOut ∧
    "SKILL.md" ∈ mixOut.writes := by
  have h := per_url_failure_captured.1 worldMix cfgMap "http://a.com/bad" "boom" rfl
  exact ⟨by rw [h], by rw [h], rfl, by decide⟩

end SkillGen
